import Mathlib

/-!
Shallow embedding of the core signal-processing, segmentation, retry and
transcript-store logic of the obsidian-smart-transcriber repository, together
with proofs of its specified properties.

Numeric conventions: the TypeScript source computes with JS numbers over small
decimal constants; the embedding uses `ℚ`, reading every decimal literal
exactly.  Timestamps (`Date.now()` values) are embedded as `Int` milliseconds.
Time counters (whole seconds) are embedded as `Nat`.  JS strings are embedded
as `String` (ids, error messages) or as `List Char` (transcript text, where the
export/parse round trip works character by character).
-/

namespace SmartTranscriber

/-! ## Voice activity detector (src/src/services/VoiceActivityDetector.ts) -/

/-- `VoiceFeatures` interface of `VoiceActivityDetector.ts`. -/
structure VoiceFeatures where
  fundamentalEnergy : ℚ
  formantEnergy : ℚ
  spectralCentroid : ℚ
  spectralRolloff : ℚ
  zeroCrossingRate : ℚ
  shortTimeEnergy : ℚ
  energyVariation : ℚ
  spectralFlux : ℚ
deriving DecidableEq

/-- `VoiceDetectionResult` interface of `VoiceActivityDetector.ts`. -/
structure VoiceDetectionResult where
  isHumanVoice : Bool
  isComputerAudio : Bool
  confidence : ℚ
  features : VoiceFeatures
  audioLevel : ℚ
deriving DecidableEq

/-- `calculateBandEnergy(spectrum, startBin, endBin)`: sum of squared
magnitudes over bins `startBin .. min endBin (length-1)`, divided by
`endBin - startBin + 1`. -/
def calculateBandEnergy (spectrum : List ℚ) (startBin endBin : Nat) : ℚ :=
  (((List.range (min endBin (spectrum.length - 1) + 1)).drop startBin).map
    (fun i => spectrum.getD i 0 * spectrum.getD i 0)).sum
    / ((endBin - startBin + 1 : ℕ) : ℚ)

/-- Short-time energy computed in `analyzeSpectrum`: mean of squared magnitude
across the full (0..1 normalized) spectrum. -/
def shortTimeEnergyOf (spectrum : List ℚ) : ℚ :=
  (spectrum.map (fun v => v * v)).sum / (spectrum.length : ℚ)

/-- The `humanVoiceScore` accumulated in `classifyAudioType` (rule weights and
thresholds from `DETECTION_THRESHOLDS` and the inline constants). -/
def humanVoiceScore (features : VoiceFeatures) : ℚ :=
  (if 0.01 < features.fundamentalEnergy then 0.3 else 0) +
  (if 1.5 < features.formantEnergy / (features.fundamentalEnergy + 0.001) then 0.4 else 0) +
  (if 0.1 ≤ features.zeroCrossingRate ∧ features.zeroCrossingRate ≤ 0.5 then 0.2 else 0) +
  (if 0.2 < features.spectralCentroid ∧ features.spectralCentroid < 0.6 then 0.1 else 0)

/-- The `computerAudioScore` accumulated in `classifyAudioType`; the high
frequency band is bins 48–127 of the raw normalized spectrum. -/
def computerAudioScore (features : VoiceFeatures) (rawSpectrum : List ℚ) : ℚ :=
  (if 0.5 < calculateBandEnergy rawSpectrum 48 127 / (features.shortTimeEnergy + 0.001)
    then 0.3 else 0) +
  (if 0.7 < features.spectralRolloff then 0.2 else 0) +
  (if features.energyVariation < 0.01 then 0.1 else 0)

/-- `classifyAudioType` from `VoiceActivityDetector.ts`: fast silence path for
`shortTimeEnergy < 0.01`, otherwise weighted scoring and the final decision
cascade. -/
def classifyAudioType (features : VoiceFeatures) (rawSpectrum : List ℚ) : VoiceDetectionResult :=
  if features.shortTimeEnergy < 0.01 then
    ⟨false, false, 0.9, features, 0⟩
  else
    if 0 < humanVoiceScore features + computerAudioScore features rawSpectrum then
      if computerAudioScore features rawSpectrum < humanVoiceScore features ∧
          0.2 < humanVoiceScore features then
        ⟨true, false, min 1 (humanVoiceScore features + computerAudioScore features rawSpectrum),
          features, min 100 (features.shortTimeEnergy * 1000)⟩
      else if 0.3 < computerAudioScore features rawSpectrum then
        ⟨false, true, min 1 (humanVoiceScore features + computerAudioScore features rawSpectrum),
          features, min 100 (features.shortTimeEnergy * 1000)⟩
      else
        ⟨false, false, min 1 (humanVoiceScore features + computerAudioScore features rawSpectrum),
          features, min 100 (features.shortTimeEnergy * 1000)⟩
    else
      ⟨false, false, 0, features, min 100 (features.shortTimeEnergy * 1000)⟩

/-- The background-noise tracking state of `VoiceActivityDetector`:
`noiseEstimationBuffer`, `backgroundNoiseLevel`, `adaptiveThreshold`. -/
structure NoiseTracker where
  noiseEstimationBuffer : List ℚ
  backgroundNoiseLevel : ℚ
  adaptiveThreshold : ℚ
deriving DecidableEq

/-- Constructor state: the buffer is pre-filled with 50 zeros
(`new Array(50).fill(0)`); `backgroundNoiseLevel = 0`,
`adaptiveThreshold = 0.3` field initializers. -/
def initNoiseTracker : NoiseTracker :=
  ⟨List.replicate 50 0, 0, 0.3⟩

/-- The buffer part of `updateBackgroundNoise`: push the sample, then `shift`
the oldest one out when the 50-sample cap is exceeded. -/
def pushEnergy (buf : List ℚ) (currentEnergy : ℚ) : List ℚ :=
  if 50 < (buf ++ [currentEnergy]).length then (buf ++ [currentEnergy]).drop 1
  else buf ++ [currentEnergy]

/-- The percentile part of `updateBackgroundNoise`:
`sortedBuffer[Math.floor(sortedBuffer.length * 0.2)] || 0`.
`Math.floor(length * 0.2)` agrees with `length / 5` (ℕ division) for every
length that can occur here (≤ 51), so the index is embedded as `length / 5`.
JS `sort((a,b) => a-b)` produces the unique ascending permutation, embedded as
`List.insertionSort (· ≤ ·)`; the `|| 0` fallback is the `getD` default. -/
def backgroundLevelOf (buf : List ℚ) : ℚ :=
  (List.insertionSort (· ≤ ·) buf).getD (buf.length / 5) 0

/-- `updateBackgroundNoise(currentEnergy)`: push, cap at 50 dropping the
oldest, then recompute the 20th-percentile noise level and the adaptive
threshold `max(0.1, backgroundNoiseLevel * 3)`. -/
def updateBackgroundNoise (st : NoiseTracker) (currentEnergy : ℚ) : NoiseTracker :=
  let buf := pushEnergy st.noiseEstimationBuffer currentEnergy
  let bg := backgroundLevelOf buf
  ⟨buf, bg, max 0.1 (bg * 3)⟩

/-! ## Noise suppressor (src/unnamed/part_000, `SpectralSubtraction`) -/

/-- State of `SpectralSubtraction`: per-bin noise estimate plus the
`isInitialized` flag. `alpha = 2.0` and `beta = 0.01` are constants. -/
structure SpectralSubtraction where
  noiseSpectrum : List ℚ
  isInitializedFlag : Bool
deriving DecidableEq

/-- `new SpectralSubtraction(spectrumSize)`: zeroed noise spectrum, not
yet initialized. -/
def mkSpectralSubtraction (spectrumSize : Nat) : SpectralSubtraction :=
  ⟨List.replicate spectrumSize 0, false⟩

/-- `updateNoiseEstimate(spectrum, isVoice)`: on a silence frame, the first
call copies the spectrum, later calls blend with
`0.95 * noise[i] + 0.05 * spectrum[i]`; voice frames change nothing. -/
def updateNoiseEstimate (st : SpectralSubtraction) (spectrum : List ℚ) (isVoice : Bool) :
    SpectralSubtraction :=
  if !isVoice then
    if !st.isInitializedFlag then
      ⟨spectrum, true⟩
    else
      ⟨(st.noiseSpectrum.zip spectrum).map (fun p => 0.95 * p.1 + 0.05 * p.2), true⟩
  else
    st

/-- `suppress(spectrum)`: pass-through until initialized; afterwards per-bin
spectral subtraction with over-subtraction factor `alpha = 2`, gain floor
`beta = 0.01` and gain smoothing `0.8 * gain + 0.2 * beta`. -/
def suppress (st : SpectralSubtraction) (spectrum : List ℚ) : List ℚ :=
  if !st.isInitializedFlag then
    spectrum
  else
    (spectrum.zip st.noiseSpectrum).map (fun p =>
      if 0 < p.1 ∧ 0 < p.2 then
        let snr := p.1 / p.2
        let gain := max 0.01 (1 - 2 / snr)
        (0.8 * gain + 0.2 * 0.01) * p.1
      else p.1)

/-- `reset()`: zero the noise spectrum and clear the initialized flag. -/
def SpectralSubtraction.reset (st : SpectralSubtraction) : SpectralSubtraction :=
  ⟨List.replicate st.noiseSpectrum.length 0, false⟩

/-! ## Whisper API retry policy (src/unnamed/part_006, `WhisperAPI`) -/

/-- `maxRetries` field of `WhisperAPI`. -/
def maxRetries : Nat := 3

/-- `retryDelay` field of `WhisperAPI` (milliseconds). -/
def retryDelay : Nat := 1000

/-- `as.startsWith(bs)` on character lists. -/
def listStartsWith : List Char → List Char → Bool
  | _, [] => true
  | [], _ :: _ => false
  | a :: as, b :: bs => a == b && listStartsWith as bs

/-- `hay.includes(needle)` on character lists. -/
def listHasSub (needle : List Char) : List Char → Bool
  | [] => listStartsWith [] needle
  | a :: t => listStartsWith (a :: t) needle || listHasSub needle t

/-- `isRetryableError(error)`: the lowercased message contains one of the
transient-failure substrings. -/
def isRetryableError (message : String) : Bool :=
  let m := message.data.map Char.toLower
  listHasSub ("network".data) m ||
  listHasSub ("timeout".data) m ||
  listHasSub ("502".data) m ||
  listHasSub ("503".data) m ||
  listHasSub ("504".data) m ||
  listHasSub ("rate limit".data) m

/-- `makeTranscriptionRequest` retry loop, with the attempt itself abstracted
as `attempt retryCount` (an HTTP round trip returning a result or a thrown
error message).  Returns the list of backoff delays awaited (each
`retryDelay * 2 ^ retryCount`) together with the final outcome.

The source recursion is guarded by `retryCount < maxRetries`; it is embedded
structurally on `remaining = maxRetries - retryCount`, with
`retryCount < maxRetries` exactly when `remaining ≠ 0`. -/
def requestFrom {R : Type} (attempt : Nat → Except String R) :
    Nat → Nat → List Nat × Except String R
  | 0, retryCount =>
    match attempt retryCount with
    | .ok r => ([], .ok r)
    | .error e => ([], .error e)
  | r' + 1, retryCount =>
    match attempt retryCount with
    | .ok r => ([], .ok r)
    | .error e =>
      if isRetryableError e then
        (retryDelay * 2 ^ retryCount :: (requestFrom attempt r' (retryCount + 1)).1,
          (requestFrom attempt r' (retryCount + 1)).2)
      else ([], .error e)

/-- Entry point: `makeTranscriptionRequest(audioBlob, options)` starts with
`retryCount = 0`, hence `remaining = maxRetries`. -/
def makeTranscriptionRequest {R : Type} (attempt : Nat → Except String R) :
    List Nat × Except String R :=
  requestFrom attempt maxRetries 0

/-! ## Transcript segment store (src/unnamed/part_008, `SegmentManager`) -/

/-- `TranscriptSegment` of `SegmentManager.ts`; `text` is embedded as
`List Char`, `timestamp` as `Int` milliseconds. -/
structure TranscriptSegment where
  id : String
  timestamp : Int
  text : List Char
  isProcessing : Bool
deriving DecidableEq

/-- `Map.set(id, seg)` on the insertion-ordered segment map: replace the
existing entry in place, or append a new one. -/
def setEntry : List TranscriptSegment → TranscriptSegment → List TranscriptSegment
  | [], s => [s]
  | t :: ts, s => if t.id = s.id then s :: ts else t :: setEntry ts s

/-- `Map.get(id)`. -/
def getEntry : List TranscriptSegment → String → Option TranscriptSegment
  | [], _ => none
  | t :: ts, i => if t.id = i then some t else getEntry ts i

/-- JS `String.prototype.trim` on a character list. -/
def trimChars (t : List Char) : List Char :=
  ((t.dropWhile Char.isWhitespace).reverse.dropWhile Char.isWhitespace).reverse

/-- The sentinel text stored when transcription fails. -/
def failedMarker : List Char := "[Transcription failed]".data

/-- Outcome of `SegmentManager.handleAudioSegment`: the updated store, the
segments pushed through `onSegmentUpdate`, the errors pushed through
`onError`, and whether the session was stopped (the method never calls
`stopRecording` and never rethrows, so this is `false` on both paths). -/
structure HandleResult where
  segments : List TranscriptSegment
  updates : List TranscriptSegment
  reportedErrors : List String
  stoppedRecording : Bool
deriving DecidableEq

/-- `handleAudioSegment(audioSegment)` with the `whisperAPI.transcribe` call
abstracted as `transcription` (the transcribed text, or the error that
exhausted all retries).  First stores the `isProcessing = true` placeholder,
then either the trimmed text or the `[Transcription failed]` marker, both
with `isProcessing = false`. -/
def handleAudioSegment (segments : List TranscriptSegment) (segId : String)
    (timestamp : Int) (transcription : Except String (List Char)) : HandleResult :=
  let s0 : TranscriptSegment := ⟨segId, timestamp, [], true⟩
  let segs0 := setEntry segments s0
  match transcription with
  | .ok t =>
    let s1 : TranscriptSegment := ⟨segId, timestamp, trimChars t, false⟩
    ⟨setEntry segs0 s1, [s0, s1], [], false⟩
  | .error e =>
    let s1 : TranscriptSegment := ⟨segId, timestamp, failedMarker, false⟩
    ⟨setEntry segs0 s1, [s0, s1], [e], false⟩

/-- `getAllSegments()`: the stored segments sorted ascending by timestamp
(JS `Array.prototype.sort` is stable, as is `insertionSort`). -/
def getAllSegments (segments : List TranscriptSegment) : List TranscriptSegment :=
  List.insertionSort (fun a b => a.timestamp ≤ b.timestamp) segments

/-- `lines.join('\n')` on character-list lines. -/
def joinLines : List (List Char) → List Char
  | [] => []
  | [t] => t
  | t :: t' :: ts => t ++ '\n' :: joinLines (t' :: ts)

/-- `exportTranscript({format: 'text'})` without timestamps: completed
segments (`!isProcessing`), in `getAllSegments()` order, one line each. -/
def exportTranscript (segments : List TranscriptSegment) : List Char :=
  joinLines ((((getAllSegments segments).filter (fun s => !s.isProcessing)).map
    (fun s => s.text)))

/-- Split a character list at every newline. -/
def splitLines : List Char → List (List Char)
  | [] => [[]]
  | c :: cs =>
    if c = '\n' then [] :: splitLines cs
    else
      match splitLines cs with
      | [] => [[c]]
      | l :: ls => (c :: l) :: ls

/-- Modelled from the spec: the repository exports transcripts as
newline-joined text but contains no parser for that format; the round-trip
property of §8 presupposes the evident line-based parse, which is
`splitLines`. -/
def parseTranscript (s : List Char) : List (List Char) :=
  splitLines s

/-! ## Segmentation state machine (src/unnamed/part_005, `VoiceRecorder`) -/

/-- The smart-timing state of the recorder component: `isVoiceActive`,
`wasVoiceActive`, `isSegmentReady`, the three second counters and
`lastVoiceEndTime`. -/
structure SegState where
  isVoiceActive : Bool
  wasVoiceActive : Bool
  isSegmentReady : Bool
  activeRecordingTime : Nat
  totalRecordingTime : Nat
  segmentRecordingTime : Nat
  lastVoiceEndTime : Int
deriving DecidableEq

/-- The voice-state edge detection inside the `startVoiceDetection` interval
callback: `voiceDetected && !isVoiceActive` turns the flag on,
`!voiceDetected && isVoiceActive` turns it off. -/
def updateVoiceState (voiceDetected : Bool) (st : SegState) : SegState :=
  if voiceDetected && !st.isVoiceActive then
    { st with isVoiceActive := true }
  else if !voiceDetected && st.isVoiceActive then
    { st with isVoiceActive := false }
  else st

/-- `handleSmartSegmentation()`: track the voice-to-silence edge
(`lastVoiceEndTime := now`), then emit the buffered segment
(`uploadCurrentSegment`) when a ripe segment meets `pauseThreshold`
milliseconds of silence, resetting `isSegmentReady` and
`segmentRecordingTime` but not `activeRecordingTime`.  The returned `Bool`
records whether `uploadCurrentSegment()` was invoked.  The voice-to-silence
edge tracking at the top of the function body is split out as
`trackVoiceEdge`. -/
def trackVoiceEdge (now : Int) (st : SegState) : SegState :=
  if !st.isVoiceActive && st.wasVoiceActive then
    { st with lastVoiceEndTime := now, wasVoiceActive := false }
  else if st.isVoiceActive && !st.wasVoiceActive then
    { st with wasVoiceActive := true }
  else st

def handleSmartSegmentation (pauseThreshold : Int) (now : Int) (st : SegState) :
    SegState × Bool :=
  if (trackVoiceEdge now st).isSegmentReady && !(trackVoiceEdge now st).isVoiceActive then
    if pauseThreshold ≤ now - (trackVoiceEdge now st).lastVoiceEndTime then
      ({ trackVoiceEdge now st with isSegmentReady := false, segmentRecordingTime := 0 }, true)
    else (trackVoiceEdge now st, false)
  else (trackVoiceEdge now st, false)

/-- One detection tick (the 10ms interval): update `isVoiceActive` from the
classifier-derived `voiceDetected`, then run `handleSmartSegmentation`. -/
def detectionTick (pauseThreshold : Int) (voiceDetected : Bool) (now : Int)
    (st : SegState) : SegState × Bool :=
  handleSmartSegmentation pauseThreshold now (updateVoiceState voiceDetected st)

/-- One tick of the per-second `recordingTimer` interval in `startRecording`:
`totalRecordingTime` always increments; on voice-active seconds the active and
segment counters increment and the segment becomes ready once
`segmentRecordingTime >= segmentDuration`.  The callback's sequential field
mutations are flattened into one record update per branch; the readiness test
reads the already-incremented counter, i.e. `segmentRecordingTime + 1` of the
pre-state. -/
def recordingTimerTick (segmentDuration : Nat) (st : SegState) : SegState :=
  if st.isVoiceActive then
    if segmentDuration ≤ st.segmentRecordingTime + 1 && !st.isSegmentReady then
      { st with totalRecordingTime := st.totalRecordingTime + 1,
                activeRecordingTime := st.activeRecordingTime + 1,
                segmentRecordingTime := st.segmentRecordingTime + 1,
                isSegmentReady := true }
    else
      { st with totalRecordingTime := st.totalRecordingTime + 1,
                activeRecordingTime := st.activeRecordingTime + 1,
                segmentRecordingTime := st.segmentRecordingTime + 1 }
  else { st with totalRecordingTime := st.totalRecordingTime + 1 }

/-- A recording-session event: either a per-second timer tick or a detection
tick with its voice decision and `Date.now()`. -/
inductive SegEvent where
  | second : SegEvent
  | detect (voiceDetected : Bool) (now : Int) : SegEvent
deriving DecidableEq

/-- Apply one session event to the segmentation state. -/
def applyEvent (segmentDuration : Nat) (pauseThreshold : Int) (st : SegState) :
    SegEvent → SegState
  | .second => recordingTimerTick segmentDuration st
  | .detect vd now => (detectionTick pauseThreshold vd now st).1

/-- Apply a sequence of session events. -/
def applyEvents (segmentDuration : Nat) (pauseThreshold : Int)
    (events : List SegEvent) (st : SegState) : SegState :=
  events.foldl (applyEvent segmentDuration pauseThreshold) st

/-- Run a sequence of voice-inactive detection ticks, collecting the times at
which a segment was emitted. -/
def runSilenceTicks (pauseThreshold : Int) : SegState → List Int → SegState × List Int
  | st, [] => (st, [])
  | st, t :: ts =>
    ((runSilenceTicks pauseThreshold (detectionTick pauseThreshold false t st).1 ts).1,
      if (detectionTick pauseThreshold false t st).2 then
        t :: (runSilenceTicks pauseThreshold (detectionTick pauseThreshold false t st).1 ts).2
      else
        (runSilenceTicks pauseThreshold (detectionTick pauseThreshold false t st).1 ts).2)

/-! ## Helper lemmas -/

theorem humanVoiceScore_nonneg (f : VoiceFeatures) : 0 ≤ humanVoiceScore f := by
  unfold humanVoiceScore
  split_ifs <;> norm_num

theorem computerAudioScore_nonneg (f : VoiceFeatures) (sp : List ℚ) :
    0 ≤ computerAudioScore f sp := by
  unfold computerAudioScore
  split_ifs <;> norm_num

theorem updateNoiseEstimate_voice (st : SpectralSubtraction) (sp : List ℚ) :
    updateNoiseEstimate st sp true = st := by
  simp [updateNoiseEstimate]

theorem foldl_updateNoiseEstimate_voice (frames : List (List ℚ)) (st : SpectralSubtraction) :
    frames.foldl (fun s sp => updateNoiseEstimate s sp true) st = st := by
  induction frames with
  | nil => rfl
  | cons a t ih => rw [List.foldl_cons, updateNoiseEstimate_voice]; exact ih

theorem trackVoiceEdge_active (now : Int) (st : SegState) :
    (trackVoiceEdge now st).activeRecordingTime = st.activeRecordingTime := by
  unfold trackVoiceEdge
  split_ifs <;> rfl

theorem handleSmartSegmentation_active (pauseThreshold now : Int) (st : SegState) :
    (handleSmartSegmentation pauseThreshold now st).1.activeRecordingTime
      = st.activeRecordingTime := by
  unfold handleSmartSegmentation
  split_ifs <;> simp [trackVoiceEdge_active]

theorem updateVoiceState_active (vd : Bool) (st : SegState) :
    (updateVoiceState vd st).activeRecordingTime = st.activeRecordingTime := by
  unfold updateVoiceState
  split_ifs <;> rfl

theorem applyEvent_active_mono (d : Nat) (p : Int) (st : SegState) (ev : SegEvent) :
    st.activeRecordingTime ≤ (applyEvent d p st ev).activeRecordingTime := by
  cases ev with
  | second =>
    show st.activeRecordingTime ≤ (recordingTimerTick d st).activeRecordingTime
    unfold recordingTimerTick
    split_ifs <;> simp
  | detect vd now =>
    show st.activeRecordingTime
      ≤ (detectionTick p vd now st).1.activeRecordingTime
    unfold detectionTick
    rw [handleSmartSegmentation_active, updateVoiceState_active]

theorem applyEvents_active_mono (d : Nat) (p : Int) (events : List SegEvent) (st : SegState) :
    st.activeRecordingTime ≤ (applyEvents d p events st).activeRecordingTime := by
  induction events generalizing st with
  | nil => exact le_refl _
  | cons e t ih =>
    exact le_trans (applyEvent_active_mono d p st e) (ih _)

theorem requestFrom_delay_shape {R : Type} (attempt : Nat → Except String R) :
    ∀ (remaining k : Nat),
      ∃ t, (requestFrom attempt remaining k).1 ++ t
        = (List.range remaining).map (fun i => retryDelay * 2 ^ (k + i)) := by
  intro remaining
  induction remaining with
  | zero =>
    intro k
    refine ⟨[], ?_⟩
    cases h : attempt k <;> simp [requestFrom, h]
  | succ r ih =>
    intro k
    cases h : attempt k with
    | ok v =>
      exact ⟨(List.range (r + 1)).map (fun i => retryDelay * 2 ^ (k + i)),
        by simp [requestFrom, h]⟩
    | error e =>
      cases hr : isRetryableError e with
      | true =>
        obtain ⟨t, ht⟩ := ih (k + 1)
        refine ⟨t, ?_⟩
        rw [List.range_succ_eq_map, List.map_cons, List.map_map]
        simp only [requestFrom, h, hr, if_true, List.cons_append]
        rw [ht]
        refine congrArg₂ _ (by rw [Nat.add_zero]) ?_
        refine List.map_congr_left fun i _ => ?_
        have hik : k + 1 + i = k + (i + 1) := by omega
        simp [Function.comp, hik]

      | false =>
        exact ⟨(List.range (r + 1)).map (fun i => retryDelay * 2 ^ (k + i)),
          by simp [requestFrom, h, hr]⟩

theorem getEntry_setEntry_same (l : List TranscriptSegment) (s : TranscriptSegment) :
    getEntry (setEntry l s) s.id = some s := by
  induction l with
  | nil => simp [setEntry, getEntry]
  | cons t ts ih =>
    by_cases h : t.id = s.id
    · simp [setEntry, getEntry, h]
    · simp [setEntry, getEntry, h, ih]

theorem getEntry_setEntry_other (l : List TranscriptSegment) (s : TranscriptSegment)
    (i : String) (h : i ≠ s.id) : getEntry (setEntry l s) i = getEntry l i := by
  have h' : s.id ≠ i := Ne.symm h
  induction l with
  | nil => simp [setEntry, getEntry, h']
  | cons t ts ih =>
    by_cases ht : t.id = s.id
    · simp [setEntry, getEntry, ht, h']
    · simp [setEntry, getEntry, ht, ih]

theorem updateBackgroundNoise_buffer (st : NoiseTracker) (e : ℚ) :
    (updateBackgroundNoise st e).noiseEstimationBuffer
      = pushEnergy st.noiseEstimationBuffer e := rfl

theorem updateBackgroundNoise_bg (st : NoiseTracker) (e : ℚ) :
    (updateBackgroundNoise st e).backgroundNoiseLevel
      = backgroundLevelOf (pushEnergy st.noiseEstimationBuffer e) := rfl

theorem le_foldr_max_base (b : ℚ) (l : List ℚ) : b ≤ l.foldr max b := by
  induction l with
  | nil => exact le_refl b
  | cons a t ih => exact le_trans ih (le_max_right a _)

theorem le_foldr_max_mem (x b : ℚ) (l : List ℚ) (h : x ∈ l) : x ≤ l.foldr max b := by
  induction l with
  | nil => simp at h
  | cons a t ih =>
    rcases List.mem_cons.mp h with rfl | hm
    · exact le_max_left x _
    · exact le_trans (ih hm) (le_max_right a _)

theorem mem_pushEnergy (buf : List ℚ) (e x : ℚ) (h : x ∈ pushEnergy buf e) :
    x ∈ buf ∨ x = e := by
  unfold pushEnergy at h
  split_ifs at h with hc
  · have := List.drop_subset 1 (buf ++ [e]) h
    simpa using this
  · simpa using h

theorem backgroundLevelOf_mem_or_zero (buf : List ℚ) :
    backgroundLevelOf buf ∈ buf ∨ backgroundLevelOf buf = 0 := by
  unfold backgroundLevelOf
  by_cases hlen : buf.length / 5 < (List.insertionSort (· ≤ ·) buf).length
  · left
    have hmem : (List.insertionSort (· ≤ ·) buf).getD (buf.length / 5) 0
        ∈ List.insertionSort (· ≤ ·) buf := by
      rw [List.getD_eq_getElem _ _ hlen]
      exact List.getElem_mem _
    exact (List.perm_insertionSort _ buf).mem_iff.mp hmem
  · right
    exact List.getD_eq_default _ _ (le_of_not_lt hlen)

theorem noise_foldl_bg_bounds (M : ℚ) (hM : 0 ≤ M) :
    ∀ (es : List ℚ) (st : NoiseTracker),
      (∀ x ∈ st.noiseEstimationBuffer, 0 ≤ x ∧ x ≤ M) →
      (0 ≤ st.backgroundNoiseLevel ∧ st.backgroundNoiseLevel ≤ M) →
      (∀ e ∈ es, 0 ≤ e ∧ e ≤ M) →
      0 ≤ (es.foldl updateBackgroundNoise st).backgroundNoiseLevel ∧
        (es.foldl updateBackgroundNoise st).backgroundNoiseLevel ≤ M := by
  intro es
  induction es with
  | nil => intro st h1 h2 _; exact h2
  | cons e t ih =>
    intro st h1 h2 h3
    rw [List.foldl_cons]
    have hbuf : ∀ x ∈ (updateBackgroundNoise st e).noiseEstimationBuffer, 0 ≤ x ∧ x ≤ M := by
      intro x hx
      rw [updateBackgroundNoise_buffer] at hx
      rcases mem_pushEnergy _ _ _ hx with hxb | rfl
      · exact h1 x hxb
      · exact h3 x (List.mem_cons_self x t)
    refine ih _ hbuf ?_ (fun e' he' => h3 e' (List.mem_cons_of_mem e he'))
    rw [updateBackgroundNoise_bg]
    rcases backgroundLevelOf_mem_or_zero (pushEnergy st.noiseEstimationBuffer e) with hmem | hzero
    · exact hbuf _ (by rw [updateBackgroundNoise_buffer]; exact hmem)
    · rw [hzero]; exact ⟨le_refl 0, hM⟩

theorem pushEnergy_length_le (buf : List ℚ) (e : ℚ) (h : buf.length ≤ 50) :
    (pushEnergy buf e).length ≤ 50 := by
  unfold pushEnergy
  split_ifs with hc <;>
    simp only [List.length_drop, List.length_append, List.length_singleton] at hc ⊢ <;>
    omega

theorem pushEnergy_full (buf : List ℚ) (e : ℚ) (h : buf.length = 50) :
    pushEnergy buf e = buf.drop 1 ++ [e] := by
  unfold pushEnergy
  rw [if_pos (by simp [h]), List.drop_append_of_le_length (by omega)]

theorem foldl_tracker_buffer (es : List ℚ) : ∀ st : NoiseTracker,
    (es.foldl updateBackgroundNoise st).noiseEstimationBuffer
      = es.foldl pushEnergy st.noiseEstimationBuffer := by
  induction es with
  | nil => intro st; rfl
  | cons e t ih =>
    intro st
    rw [List.foldl_cons, List.foldl_cons, ih, updateBackgroundNoise_buffer]

theorem foldl_tracker_bg (es : List ℚ) : ∀ st : NoiseTracker, es ≠ [] →
    (es.foldl updateBackgroundNoise st).backgroundNoiseLevel
      = backgroundLevelOf ((es.foldl updateBackgroundNoise st).noiseEstimationBuffer) ∧
    (es.foldl updateBackgroundNoise st).adaptiveThreshold
      = max 0.1 ((es.foldl updateBackgroundNoise st).backgroundNoiseLevel * 3) := by
  induction es with
  | nil => intro st h; exact absurd rfl h
  | cons e t ih =>
    intro st _
    rw [List.foldl_cons]
    by_cases ht : t = []
    · subst ht; exact ⟨rfl, rfl⟩
    · exact ih _ ht

theorem foldl_pushEnergy_shape :
    ∀ (es : List ℚ) (z : ℕ) (p : List ℚ), z + p.length = 50 → es.length ≤ z →
      es.foldl pushEnergy (List.replicate z 0 ++ p)
        = List.replicate (z - es.length) 0 ++ (p ++ es) := by
  intro es
  induction es with
  | nil => intro z p _ _; simp
  | cons e t ih =>
    intro z p h1 h2
    have hz : 1 ≤ z := le_trans (by simp) h2
    rw [List.foldl_cons]
    have hlen : (List.replicate z (0:ℚ) ++ p).length = 50 := by simp; omega
    rw [pushEnergy_full _ _ hlen]
    have hdrop : (List.replicate z (0:ℚ) ++ p).drop 1 = List.replicate (z-1) 0 ++ p := by
      cases z with
      | zero => omega
      | succ z' => simp [List.replicate_succ]
    rw [hdrop, List.append_assoc]
    rw [ih (z-1) (p ++ [e]) (by simp; omega) (by simp at h2 ⊢; omega)]
    have hzz : z - 1 - t.length = z - (t.length + 1) := by omega
    rw [hzz, List.append_assoc]
    simp

theorem sorted_getD_zero :
    ∀ (n : Nat) (l : List ℚ), l.Sorted (· ≤ ·) →
      (∀ x ∈ l, 0 ≤ x) → n + 1 ≤ l.count 0 → l.getD n 0 = 0 := by
  intro n
  induction n with
  | zero =>
    intro l hs hpos hc
    match l with
    | [] => simp at hc
    | a :: t =>
      have ha0 : (0:ℚ) ∈ a :: t := List.count_pos_iff.mp (by omega)
      have hge : 0 ≤ a := hpos a (List.mem_cons_self a t)
      have hle : a ≤ 0 := by
        rcases List.mem_cons.mp ha0 with h | h
        · exact le_of_eq h.symm
        · exact (List.sorted_cons.mp hs).1 0 h
      rw [List.getD_cons_zero]
      exact le_antisymm hle hge
  | succ n ih =>
    intro l hs hpos hc
    match l with
    | [] => simp at hc
    | a :: t =>
      rw [List.getD_cons_succ]
      have hcc : (a :: t).count 0 ≤ t.count 0 + 1 := by
        rw [List.count_cons]; split_ifs <;> omega
      exact ih t (List.sorted_cons.mp hs).2
        (fun x hx => hpos x (List.mem_cons_of_mem a hx)) (by omega)

theorem splitLines_no_newline (t : List Char) (h : '\n' ∉ t) : splitLines t = [t] := by
  induction t with
  | nil => rfl
  | cons c cs ih =>
    have hc : ¬ c = '\n' := fun hh => h (hh ▸ List.mem_cons_self c cs)
    have hcs : splitLines cs = [cs] := ih (fun hm => h (List.mem_cons_of_mem c hm))
    simp [splitLines, hc, hcs]

theorem splitLines_append (t r : List Char) (h : '\n' ∉ t) :
    splitLines (t ++ '\n' :: r) = t :: splitLines r := by
  induction t with
  | nil => simp [splitLines]
  | cons c cs ih =>
    have hc : ¬ c = '\n' := fun hh => h (hh ▸ List.mem_cons_self c cs)
    have hcs := ih (fun hm => h (List.mem_cons_of_mem c hm))
    simp [splitLines, hc, hcs]

theorem splitLines_joinLines :
    ∀ ts : List (List Char), ts ≠ [] → (∀ t ∈ ts, '\n' ∉ t) →
      splitLines (joinLines ts) = ts := by
  intro ts
  induction ts with
  | nil => intro h; exact absurd rfl h
  | cons t ts' ih =>
    intro _ hnl
    cases ts' with
    | nil =>
      show splitLines (joinLines [t]) = [t]
      rw [joinLines]
      exact splitLines_no_newline t (hnl t (List.mem_cons_self t []))
    | cons t' ts'' =>
      show splitLines (joinLines (t :: t' :: ts'')) = t :: t' :: ts''
      rw [joinLines, splitLines_append t _ (hnl t (List.mem_cons_self t _)),
        ih (by simp) (fun u hu => hnl u (List.mem_cons_of_mem t hu))]

theorem updateVoiceState_eq (vd : Bool) (st : SegState) :
    updateVoiceState vd st = { st with isVoiceActive := vd } := by
  rcases st with ⟨a, b, c, d, e, f, g⟩
  cases a <;> cases vd <;> simp [updateVoiceState]

theorem trackVoiceEdge_voiceActive (now : Int) (st : SegState) :
    (trackVoiceEdge now st).isVoiceActive = st.isVoiceActive := by
  unfold trackVoiceEdge
  split_ifs <;> rfl

theorem trackVoiceEdge_ready (now : Int) (st : SegState) :
    (trackVoiceEdge now st).isSegmentReady = st.isSegmentReady := by
  unfold trackVoiceEdge
  split_ifs <;> rfl

theorem detectionTick_voice_on (pT now : Int) (st : SegState) :
    (detectionTick pT true now st).2 = false := by
  unfold detectionTick handleSmartSegmentation
  rw [updateVoiceState_eq]
  simp [trackVoiceEdge_voiceActive]

theorem detectionTick_silent (pT t : Int) (st : SegState)
    (hw : st.wasVoiceActive = false) :
    detectionTick pT false t st
      = if st.isSegmentReady = true ∧ pT ≤ t - st.lastVoiceEndTime then
          (⟨false, false, false, st.activeRecordingTime, st.totalRecordingTime, 0,
            st.lastVoiceEndTime⟩, true)
        else (⟨false, false, st.isSegmentReady, st.activeRecordingTime,
            st.totalRecordingTime, st.segmentRecordingTime, st.lastVoiceEndTime⟩, false) := by
  rcases st with ⟨a, b, c, d, e, f, g⟩
  simp only at hw
  subst hw
  cases a <;> cases c <;>
    simp [detectionTick, updateVoiceState, handleSmartSegmentation, trackVoiceEdge]

theorem detectionTick_voicestop (pT t : Int) (st : SegState)
    (hw : st.wasVoiceActive = true) :
    detectionTick pT false t st
      = if st.isSegmentReady = true ∧ pT ≤ 0 then
          (⟨false, false, false, st.activeRecordingTime, st.totalRecordingTime, 0, t⟩, true)
        else (⟨false, false, st.isSegmentReady, st.activeRecordingTime,
            st.totalRecordingTime, st.segmentRecordingTime, t⟩, false) := by
  rcases st with ⟨a, b, c, d, e, f, g⟩
  simp only at hw
  subst hw
  cases a <;> cases c <;>
    simp [detectionTick, updateVoiceState, handleSmartSegmentation, trackVoiceEdge,
      sub_self]

theorem detectionTick_not_ready (pT : Int) (vd : Bool) (t : Int) (st : SegState)
    (hr : st.isSegmentReady = false) :
    (detectionTick pT vd t st).2 = false ∧
    (detectionTick pT vd t st).1.isSegmentReady = false := by
  unfold detectionTick handleSmartSegmentation
  rw [updateVoiceState_eq]
  have h1 : (trackVoiceEdge t { st with isVoiceActive := vd }).isSegmentReady = false := by
    rw [trackVoiceEdge_ready]
    exact hr
  simp [h1]

theorem runSilence_not_ready (pT : Int) : ∀ (ts : List Int) (st : SegState),
    st.isSegmentReady = false → (runSilenceTicks pT st ts).2 = [] := by
  intro ts
  induction ts with
  | nil => intro st _; rfl
  | cons t ts' ih =>
    intro st h
    obtain ⟨he, hready⟩ := detectionTick_not_ready pT false t st h
    simp [runSilenceTicks, he, ih _ hready]

theorem runSilence_waiting (pT t0 : Int) : ∀ (ts : List Int) (st : SegState),
    st.isVoiceActive = false → st.wasVoiceActive = false → st.isSegmentReady = true →
    st.lastVoiceEndTime = t0 → (∀ t ∈ ts, t0 ≤ t) →
    ((∀ t ∈ (runSilenceTicks pT st ts).2, t0 + pT ≤ t) ∧
     (runSilenceTicks pT st ts).2.length ≤ 1 ∧
     ((∃ t ∈ ts, t0 + pT ≤ t) ↔ (runSilenceTicks pT st ts).2.length = 1)) := by
  intro ts
  induction ts with
  | nil =>
    intro st _ _ _ _ _
    refine ⟨by simp [runSilenceTicks], by simp [runSilenceTicks], by simp [runSilenceTicks]⟩
  | cons t ts' ih =>
    intro st ha hw hr hl hmono
    have htick := detectionTick_silent pT t st hw
    have ht0 : t0 ≤ t := hmono t (List.mem_cons_self t ts')
    by_cases hemit : pT ≤ t - st.lastVoiceEndTime
    · rw [if_pos ⟨hr, hemit⟩] at htick
      have hrest : (runSilenceTicks pT
          (⟨false, false, false, st.activeRecordingTime, st.totalRecordingTime, 0,
            st.lastVoiceEndTime⟩ : SegState) ts').2 = [] :=
        runSilence_not_ready pT ts' _ rfl
      have hrun : (runSilenceTicks pT st (t :: ts')).2 = [t] := by
        simp [runSilenceTicks, htick, hrest]
      rw [hrun]
      have hle : t0 + pT ≤ t := by
        rw [hl] at hemit
        omega
      refine ⟨by simpa using hle, by simp, ?_⟩
      simp only [List.length_singleton]
      exact ⟨fun _ => trivial, fun _ => ⟨t, List.mem_cons_self t ts', hle⟩⟩
    · rw [if_neg (fun hc => hemit hc.2)] at htick
      have hrun : (runSilenceTicks pT st (t :: ts')).2
          = (runSilenceTicks pT
              (⟨false, false, st.isSegmentReady, st.activeRecordingTime,
                st.totalRecordingTime, st.segmentRecordingTime,
                st.lastVoiceEndTime⟩ : SegState) ts').2 := by
        simp [runSilenceTicks, htick]
      obtain ⟨ihall, ihlen, ihiff⟩ := ih
        ⟨false, false, st.isSegmentReady, st.activeRecordingTime,
          st.totalRecordingTime, st.segmentRecordingTime, st.lastVoiceEndTime⟩
        rfl rfl hr hl (fun u hu => hmono u (List.mem_cons_of_mem t hu))
      rw [hrun]
      have hnl : ¬ (t0 + pT ≤ t) := by
        rw [hl] at hemit
        omega
      refine ⟨ihall, ihlen, ?_⟩
      rw [← ihiff]
      constructor
      · rintro ⟨u, hu, hcond⟩
        rcases List.mem_cons.mp hu with rfl | hu'
        · exact absurd hcond hnl
        · exact ⟨u, hu', hcond⟩
      · rintro ⟨u, hu, hcond⟩
        exact ⟨u, List.mem_cons_of_mem t hu, hcond⟩

/-! ## Claim theorems -/

/-- Claim C3: for every feature vector whose `shortTimeEnergy` is below 0.01
the classifier returns immediately with `isHumanVoice = false`,
`isComputerAudio = false`, `confidence = 0.9`, `audioLevel = 0` (no scoring
rule is evaluated on this early-return path), and an all-zero input frame
yields `shortTimeEnergy = 0`, hence takes this fast silence path. -/
theorem classifyAudioType_silence_fast_path :
    (∀ (f : VoiceFeatures) (sp : List ℚ), f.shortTimeEnergy < 0.01 →
      classifyAudioType f sp = ⟨false, false, 0.9, f, 0⟩) ∧
    (∀ n : ℕ, shortTimeEnergyOf (List.replicate n 0) = 0) := by
  constructor
  · intro f sp h
    simp [classifyAudioType, h]
  · intro n
    simp [shortTimeEnergyOf]

theorem classifyAudioType_silence_fast_path_witness :
    ((⟨0, 0, 0, 0, 0, 0, 0, 0⟩ : VoiceFeatures).shortTimeEnergy < 0.01 ∧
      shortTimeEnergyOf (List.replicate 4 0) = 0) ∧
    classifyAudioType ⟨0, 0, 0, 0, 0, 0, 0, 0⟩ []
      = ⟨false, false, 0.9, ⟨0, 0, 0, 0, 0, 0, 0, 0⟩, 0⟩ :=
  ⟨⟨by norm_num, classifyAudioType_silence_fast_path.2 4⟩,
    classifyAudioType_silence_fast_path.1 _ _ (by norm_num)⟩

/-- Claim C4: for every feature vector with `shortTimeEnergy ≥ 0.01` the
classifier's decisions are exactly determined by `humanVoiceScore` (weights
0.3/0.4/0.2/0.1) and `computerAudioScore` (weights 0.3/0.2/0.1 with the
high-frequency band energy over bins 48–127): `isHumanVoice` iff the human
score beats the computer score and exceeds 0.2, otherwise `isComputerAudio`
iff the computer score exceeds 0.3; `confidence = min 1 total` when the total
is positive and 0 when it is 0, and `audioLevel = min 100 (energy * 1000)` on
every such non-silence path. -/
theorem classifyAudioType_scoring (f : VoiceFeatures) (sp : List ℚ)
    (h : 0.01 ≤ f.shortTimeEnergy) :
    ((classifyAudioType f sp).isHumanVoice = true ↔
      computerAudioScore f sp < humanVoiceScore f ∧ 0.2 < humanVoiceScore f) ∧
    ((classifyAudioType f sp).isComputerAudio = true ↔
      ¬(computerAudioScore f sp < humanVoiceScore f ∧ 0.2 < humanVoiceScore f) ∧
        0.3 < computerAudioScore f sp) ∧
    (classifyAudioType f sp).confidence =
      (if 0 < humanVoiceScore f + computerAudioScore f sp
        then min 1 (humanVoiceScore f + computerAudioScore f sp) else 0) ∧
    (classifyAudioType f sp).audioLevel = min 100 (f.shortTimeEnergy * 1000) ∧
    (classifyAudioType f sp).features = f := by
  have h0 : ¬ f.shortTimeEnergy < 0.01 := not_lt.mpr h
  have hhv := humanVoiceScore_nonneg f
  have hca := computerAudioScore_nonneg f sp
  unfold classifyAudioType
  rw [if_neg h0]
  split_ifs with h1 h2 h3
  · exact ⟨by simp [h2], by simp [h2], rfl, rfl, rfl⟩
  · exact ⟨by simp [h2], by simp [h2, h3], rfl, rfl, rfl⟩
  · exact ⟨by simp [h2], by simp [h2, h3], rfl, rfl, rfl⟩
  · refine ⟨?_, ?_, rfl, rfl, rfl⟩
    · simp only [Bool.false_eq_true, false_iff]
      rintro ⟨-, h2b⟩
      push_neg at h1
      linarith
    · simp only [Bool.false_eq_true, false_iff]
      rintro ⟨-, h3b⟩
      push_neg at h1
      linarith

theorem classifyAudioType_scoring_witness :
    ((0.01 : ℚ) ≤ (⟨0.02, 0.05, 0.3, 0.8, 0.3, 0.02, 0.005, 0⟩ : VoiceFeatures).shortTimeEnergy) ∧
    (((classifyAudioType ⟨0.02, 0.05, 0.3, 0.8, 0.3, 0.02, 0.005, 0⟩ []).isHumanVoice = true ↔
      computerAudioScore ⟨0.02, 0.05, 0.3, 0.8, 0.3, 0.02, 0.005, 0⟩ []
          < humanVoiceScore ⟨0.02, 0.05, 0.3, 0.8, 0.3, 0.02, 0.005, 0⟩ ∧
        0.2 < humanVoiceScore ⟨0.02, 0.05, 0.3, 0.8, 0.3, 0.02, 0.005, 0⟩) ∧
    ((classifyAudioType ⟨0.02, 0.05, 0.3, 0.8, 0.3, 0.02, 0.005, 0⟩ []).isComputerAudio = true ↔
      ¬(computerAudioScore ⟨0.02, 0.05, 0.3, 0.8, 0.3, 0.02, 0.005, 0⟩ []
          < humanVoiceScore ⟨0.02, 0.05, 0.3, 0.8, 0.3, 0.02, 0.005, 0⟩ ∧
        0.2 < humanVoiceScore ⟨0.02, 0.05, 0.3, 0.8, 0.3, 0.02, 0.005, 0⟩) ∧
        0.3 < computerAudioScore ⟨0.02, 0.05, 0.3, 0.8, 0.3, 0.02, 0.005, 0⟩ []) ∧
    (classifyAudioType ⟨0.02, 0.05, 0.3, 0.8, 0.3, 0.02, 0.005, 0⟩ []).confidence =
      (if 0 < humanVoiceScore ⟨0.02, 0.05, 0.3, 0.8, 0.3, 0.02, 0.005, 0⟩
            + computerAudioScore ⟨0.02, 0.05, 0.3, 0.8, 0.3, 0.02, 0.005, 0⟩ []
        then min 1 (humanVoiceScore ⟨0.02, 0.05, 0.3, 0.8, 0.3, 0.02, 0.005, 0⟩
            + computerAudioScore ⟨0.02, 0.05, 0.3, 0.8, 0.3, 0.02, 0.005, 0⟩ []) else 0) ∧
    (classifyAudioType ⟨0.02, 0.05, 0.3, 0.8, 0.3, 0.02, 0.005, 0⟩ []).audioLevel
      = min 100 ((⟨0.02, 0.05, 0.3, 0.8, 0.3, 0.02, 0.005, 0⟩ : VoiceFeatures).shortTimeEnergy * 1000) ∧
    (classifyAudioType ⟨0.02, 0.05, 0.3, 0.8, 0.3, 0.02, 0.005, 0⟩ []).features
      = ⟨0.02, 0.05, 0.3, 0.8, 0.3, 0.02, 0.005, 0⟩) :=
  ⟨by norm_num, classifyAudioType_scoring _ _ (by norm_num)⟩

/-- Claim C8: `suppress` is a pass-through (returns its input unchanged) as
long as `updateNoiseEstimate` has never been called with `isVoice = false`
since construction or the last `reset()`; voice-frame updates do not
initialize the noise estimate. -/
theorem suppress_passthrough_before_init :
    ∀ (spectrumSize : Nat) (voiceFrames : List (List ℚ)) (x : List ℚ)
      (st0 : SpectralSubtraction),
      (voiceFrames.foldl (fun s sp => updateNoiseEstimate s sp true)
          (mkSpectralSubtraction spectrumSize)).isInitializedFlag = false ∧
      suppress (voiceFrames.foldl (fun s sp => updateNoiseEstimate s sp true)
          (mkSpectralSubtraction spectrumSize)) x = x ∧
      suppress (voiceFrames.foldl (fun s sp => updateNoiseEstimate s sp true)
          (st0.reset)) x = x := by
  intro n frames x st0
  rw [foldl_updateNoiseEstimate_voice, foldl_updateNoiseEstimate_voice]
  exact ⟨rfl, by simp [suppress, mkSpectralSubtraction],
    by simp [suppress, SpectralSubtraction.reset]⟩

/-- Claim C2: on every per-second tick while recording `totalRecordingTime`
increases by exactly 1; `activeRecordingTime` and `segmentRecordingTime`
increase by exactly 1 on voice-active ticks and are unchanged otherwise;
`isSegmentReady` becomes true exactly when it already was, or the tick is
voice-active and `segmentRecordingTime` reaches `segmentDuration`; and
`activeRecordingTime` is non-decreasing over every sequence of session events
(second ticks and detection ticks, hence also across segment emissions). -/
theorem recordingTimerTick_claim :
    ∀ (segmentDuration : Nat) (st : SegState),
      (recordingTimerTick segmentDuration st).totalRecordingTime
        = st.totalRecordingTime + 1 ∧
      (recordingTimerTick segmentDuration st).activeRecordingTime
        = st.activeRecordingTime + (if st.isVoiceActive then 1 else 0) ∧
      (recordingTimerTick segmentDuration st).segmentRecordingTime
        = st.segmentRecordingTime + (if st.isVoiceActive then 1 else 0) ∧
      ((recordingTimerTick segmentDuration st).isSegmentReady = true ↔
        (st.isSegmentReady = true ∨
          (st.isVoiceActive = true ∧ segmentDuration ≤ st.segmentRecordingTime + 1))) ∧
      (∀ (pauseThreshold : Int) (events : List SegEvent),
        st.activeRecordingTime
          ≤ (applyEvents segmentDuration pauseThreshold events st).activeRecordingTime) := by
  intro d st
  refine ⟨?_, ?_, ?_, ?_, fun p evs => applyEvents_active_mono d p evs st⟩ <;>
    · unfold recordingTimerTick
      cases hv : st.isVoiceActive <;> simp [hv] <;> split_ifs <;> simp_all

/-- Claim C5: a transcription request with a transient failure message
(`network`/`timeout`/`502`/`503`/`504`/`rate limit` substring, per
`isRetryableError`) is retried at most 3 times with delays that always form a
prefix of `[1000, 2000, 4000]` ms; transient failures on attempts 1 and 2
followed by success on attempt 3 incur exactly the delays `[1000, 2000]` and
resolve with the successful result; a non-transient failure on attempt 1
propagates immediately with zero retries and zero delays. -/
theorem makeTranscriptionRequest_retry_policy {R : Type} (attempt : Nat → Except String R) :
    (∃ t, (makeTranscriptionRequest attempt).1 ++ t = [1000, 2000, 4000]) ∧
    (∀ (e0 e1 : String) (r : R),
      attempt 0 = .error e0 → isRetryableError e0 = true →
      attempt 1 = .error e1 → isRetryableError e1 = true →
      attempt 2 = .ok r →
      makeTranscriptionRequest attempt = ([1000, 2000], .ok r)) ∧
    (∀ e0 : String, attempt 0 = .error e0 → isRetryableError e0 = false →
      makeTranscriptionRequest attempt = ([], .error e0)) := by
  refine ⟨?_, ?_, ?_⟩
  · obtain ⟨t, ht⟩ := requestFrom_delay_shape attempt 3 0
    refine ⟨t, ?_⟩
    have hmap : (List.range 3).map (fun i => retryDelay * 2 ^ (0 + i))
        = [1000, 2000, 4000] := by decide
    rw [makeTranscriptionRequest]
    show (requestFrom attempt 3 0).1 ++ t = _
    rw [ht, hmap]
  · intro e0 e1 r h0 hr0 h1 hr1 h2
    show requestFrom attempt 3 0 = _
    simp [requestFrom, h0, hr0, h1, hr1, h2, retryDelay]
  · intro e0 h0 hr0
    show requestFrom attempt 3 0 = _
    simp [requestFrom, h0, hr0]

theorem makeTranscriptionRequest_retry_policy_witness :
    ((fun k => if k = 0 then (.error "network down" : Except String Nat)
        else if k = 1 then .error "request timeout" else .ok 7) 0
          = .error "network down" ∧
      isRetryableError "network down" = true ∧
      isRetryableError "request timeout" = true ∧
      isRetryableError "bad api key" = false) ∧
    makeTranscriptionRequest (fun k => if k = 0 then (.error "network down" : Except String Nat)
        else if k = 1 then .error "request timeout" else .ok 7) = ([1000, 2000], .ok 7) ∧
    makeTranscriptionRequest (fun _ => (.error "bad api key" : Except String Nat))
      = ([], .error "bad api key") :=
  ⟨⟨rfl, by decide, by decide, by decide⟩,
    (makeTranscriptionRequest_retry_policy _).2.1 "network down" "request timeout" 7
      rfl (by decide) rfl (by decide) rfl,
    (makeTranscriptionRequest_retry_policy _).2.2 "bad api key" rfl (by decide)⟩

/-- Claim C7: when transcription of a segment fails after retries are
exhausted, exactly that segment's store entry is set to `isProcessing = false`
with the `[Transcription failed]` sentinel text, the error is reported through
the `onError` side channel, every other segment's entry is untouched, and the
handler neither stops the recording session nor rethrows. -/
theorem handleAudioSegment_failure (segments : List TranscriptSegment)
    (segId : String) (timestamp : Int) (e : String) :
    getEntry (handleAudioSegment segments segId timestamp (.error e)).segments segId
      = some ⟨segId, timestamp, failedMarker, false⟩ ∧
    (∀ otherId, otherId ≠ segId →
      getEntry (handleAudioSegment segments segId timestamp (.error e)).segments otherId
        = getEntry segments otherId) ∧
    (handleAudioSegment segments segId timestamp (.error e)).reportedErrors = [e] ∧
    (handleAudioSegment segments segId timestamp (.error e)).stoppedRecording = false := by
  refine ⟨?_, ?_, rfl, rfl⟩
  · exact getEntry_setEntry_same
      (setEntry segments ⟨segId, timestamp, [], true⟩)
      ⟨segId, timestamp, failedMarker, false⟩
  · intro otherId hne
    show getEntry (setEntry (setEntry segments ⟨segId, timestamp, [], true⟩)
      ⟨segId, timestamp, failedMarker, false⟩) otherId = getEntry segments otherId
    rw [getEntry_setEntry_other _ _ _ hne, getEntry_setEntry_other _ _ _ hne]

theorem handleAudioSegment_failure_witness :
    (("a" : String) ≠ "b" ∧
      getEntry (handleAudioSegment [⟨"a", 5, ['x'], false⟩] "b" 9
        (.error "boom")).segments "a" = getEntry [⟨"a", 5, ['x'], false⟩] "a") ∧
    getEntry (handleAudioSegment [⟨"a", 5, ['x'], false⟩] "b" 9
        (.error "boom")).segments "b" = some ⟨"b", 9, failedMarker, false⟩ ∧
    (handleAudioSegment [⟨"a", 5, ['x'], false⟩] "b" 9
        (.error "boom")).reportedErrors = ["boom"] :=
  ⟨⟨by decide, (handleAudioSegment_failure [⟨"a", 5, ['x'], false⟩] "b" 9 "boom").2.1 "a"
      (by decide)⟩,
    (handleAudioSegment_failure [⟨"a", 5, ['x'], false⟩] "b" 9 "boom").1,
    (handleAudioSegment_failure [⟨"a", 5, ['x'], false⟩] "b" 9 "boom").2.2.1⟩

/-- Claim C6: after every `updateBackgroundNoise` call the buffer holds at
most 50 samples (oldest dropped at the cap), `backgroundNoiseLevel` is the
element at index `⌊0.2 * length⌋` of the ascending-sorted buffer, and
`adaptiveThreshold = max 0.1 (backgroundNoiseLevel * 3)`; over any sequence of
non-negative pushed energies (starting from the freshly constructed detector)
`backgroundNoiseLevel` stays non-negative and never exceeds the maximum value
ever pushed. -/
theorem updateBackgroundNoise_claim :
    (∀ (st : NoiseTracker) (e : ℚ), st.noiseEstimationBuffer.length ≤ 50 →
      (updateBackgroundNoise st e).noiseEstimationBuffer.length ≤ 50 ∧
      (updateBackgroundNoise st e).backgroundNoiseLevel
        = (List.insertionSort (· ≤ ·) (updateBackgroundNoise st e).noiseEstimationBuffer).getD
            ((updateBackgroundNoise st e).noiseEstimationBuffer.length / 5) 0 ∧
      (updateBackgroundNoise st e).adaptiveThreshold
        = max 0.1 ((updateBackgroundNoise st e).backgroundNoiseLevel * 3)) ∧
    (∀ es : List ℚ, (∀ x ∈ es, 0 ≤ x) →
      0 ≤ (es.foldl updateBackgroundNoise initNoiseTracker).backgroundNoiseLevel ∧
      (es.foldl updateBackgroundNoise initNoiseTracker).backgroundNoiseLevel
        ≤ es.foldr max 0) := by
  constructor
  · intro st e h
    exact ⟨pushEnergy_length_le _ _ h, rfl, rfl⟩
  · intro es hpos
    have hM : 0 ≤ es.foldr max 0 := le_foldr_max_base 0 es
    refine noise_foldl_bg_bounds _ hM es initNoiseTracker ?_ ⟨le_refl 0, hM⟩ ?_
    · intro x hx
      have hx0 : x = 0 := List.eq_of_mem_replicate hx
      subst hx0
      exact ⟨le_refl 0, hM⟩
    · exact fun e he => ⟨hpos e he, le_foldr_max_mem e 0 es he⟩

theorem updateBackgroundNoise_claim_witness :
    (((⟨[2, 1], 0, 0.3⟩ : NoiseTracker).noiseEstimationBuffer.length ≤ 50 ∧
        (∀ x ∈ ([0.5, 0.2] : List ℚ), 0 ≤ x)) ∧
      (updateBackgroundNoise ⟨[2, 1], 0, 0.3⟩ 5).noiseEstimationBuffer.length ≤ 50 ∧
      (updateBackgroundNoise ⟨[2, 1], 0, 0.3⟩ 5).backgroundNoiseLevel
        = (List.insertionSort (· ≤ ·)
            (updateBackgroundNoise ⟨[2, 1], 0, 0.3⟩ 5).noiseEstimationBuffer).getD
            ((updateBackgroundNoise ⟨[2, 1], 0, 0.3⟩ 5).noiseEstimationBuffer.length / 5) 0) ∧
    0 ≤ (([0.5, 0.2] : List ℚ).foldl updateBackgroundNoise
        initNoiseTracker).backgroundNoiseLevel ∧
    (([0.5, 0.2] : List ℚ).foldl updateBackgroundNoise
        initNoiseTracker).backgroundNoiseLevel ≤ ([0.5, 0.2] : List ℚ).foldr max 0 :=
  ⟨⟨⟨by norm_num, by norm_num⟩,
      (updateBackgroundNoise_claim.1 ⟨[2, 1], 0, 0.3⟩ 5 (by norm_num)).1,
      (updateBackgroundNoise_claim.1 ⟨[2, 1], 0, 0.3⟩ 5 (by norm_num)).2.1⟩,
    updateBackgroundNoise_claim.2 [0.5, 0.2] (by norm_num)⟩

/-- Claim C10: the noise-estimation buffer is constructed pre-filled with 50
zeros, its length stays exactly 50 across every update, and for every
sequence of at most 39 strictly positive energy updates the 20th-percentile
index (10) still hits a pre-filled zero, so `backgroundNoiseLevel` stays 0 and
`adaptiveThreshold` stays 0.1. -/
theorem noiseBuffer_prefilled_claim :
    initNoiseTracker.noiseEstimationBuffer = List.replicate 50 0 ∧
    initNoiseTracker.noiseEstimationBuffer.length = 50 ∧
    (∀ (st : NoiseTracker) (e : ℚ), st.noiseEstimationBuffer.length = 50 →
      (updateBackgroundNoise st e).noiseEstimationBuffer.length = 50) ∧
    (∀ es : List ℚ, (∀ x ∈ es, 0 < x) → 1 ≤ es.length → es.length ≤ 39 →
      (es.foldl updateBackgroundNoise initNoiseTracker).backgroundNoiseLevel = 0 ∧
      (es.foldl updateBackgroundNoise initNoiseTracker).adaptiveThreshold = 0.1) := by
  refine ⟨rfl, by simp [initNoiseTracker], ?_, ?_⟩
  · intro st e h
    rw [updateBackgroundNoise_buffer, pushEnergy_full _ _ h]
    simp
    omega
  · intro es hpos hlen1 hlen39
    have hne : es ≠ [] := by
      intro hnil
      rw [hnil] at hlen1
      simp at hlen1
    have hbuf : (es.foldl updateBackgroundNoise initNoiseTracker).noiseEstimationBuffer
        = List.replicate (50 - es.length) 0 ++ es := by
      rw [foldl_tracker_buffer]
      have hinit : initNoiseTracker.noiseEstimationBuffer
          = List.replicate 50 (0:ℚ) ++ [] := by simp [initNoiseTracker]
      rw [hinit, foldl_pushEnergy_shape es 50 [] (by simp) (by omega)]
      simp
    obtain ⟨hbg, hat⟩ := foldl_tracker_bg es initNoiseTracker hne
    have hbuflen : (List.replicate (50 - es.length) (0:ℚ) ++ es).length = 50 := by
      simp
      omega
    have hbg0 : (es.foldl updateBackgroundNoise initNoiseTracker).backgroundNoiseLevel = 0 := by
      rw [hbg, hbuf]
      unfold backgroundLevelOf
      rw [hbuflen]
      have h10 : (50:ℕ) / 5 = 10 := by norm_num
      rw [h10]
      apply sorted_getD_zero 10
      · exact List.sorted_insertionSort _ _
      · intro x hx
        have hxmem : x ∈ List.replicate (50 - es.length) (0:ℚ) ++ es :=
          (List.perm_insertionSort _ _).mem_iff.mp hx
        rcases List.mem_append.mp hxmem with hxr | hxe
        · exact le_of_eq (List.eq_of_mem_replicate hxr).symm
        · exact le_of_lt (hpos x hxe)
      · rw [(List.perm_insertionSort _ _).count_eq, List.count_append,
          List.count_replicate_self]
        omega
    refine ⟨hbg0, ?_⟩
    rw [hat, hbg0]
    norm_num

theorem noiseBuffer_prefilled_claim_witness :
    (((⟨List.replicate 50 0, 0, 0.3⟩ : NoiseTracker).noiseEstimationBuffer.length = 50 ∧
        (∀ x ∈ ([1] : List ℚ), 0 < x) ∧ 1 ≤ ([1] : List ℚ).length ∧
        ([1] : List ℚ).length ≤ 39) ∧
      (updateBackgroundNoise ⟨List.replicate 50 0, 0, 0.3⟩ 1).noiseEstimationBuffer.length
        = 50) ∧
    (([1] : List ℚ).foldl updateBackgroundNoise initNoiseTracker).backgroundNoiseLevel = 0 ∧
    (([1] : List ℚ).foldl updateBackgroundNoise initNoiseTracker).adaptiveThreshold = 0.1 :=
  ⟨⟨⟨by simp, by norm_num, by simp, by simp⟩,
      noiseBuffer_prefilled_claim.2.2.1 ⟨List.replicate 50 0, 0, 0.3⟩ 1 (by simp)⟩,
    noiseBuffer_prefilled_claim.2.2.2 [1] (by norm_num) (by simp) (by simp)⟩

/-- Claim C9, counterexample: exporting a store whose (completed) segment text
contains a newline and re-parsing does not preserve the text content — the
newline inside the text is indistinguishable from a segment separator, so the
claimed round trip fails for this store. -/
theorem exportTranscript_roundtrip_counterexample :
    parseTranscript (exportTranscript [⟨"a", 0, ['x', '\n', 'y'], false⟩])
      ≠ ((getAllSegments [⟨"a", 0, ['x', '\n', 'y'], false⟩]).filter
          (fun s => !s.isProcessing)).map (fun s => s.text) := by
  decide

/-- Claim C9, amended: for every store contents with at least one completed
segment and whose completed segments' texts contain no newline character,
exporting to text format and re-parsing yields exactly the completed
segments' texts in timestamp-ascending order. -/
theorem exportTranscript_roundtrip_amended (segments : List TranscriptSegment)
    (hne : (getAllSegments segments).filter (fun s => !s.isProcessing) ≠ [])
    (hnl : ∀ s ∈ segments, s.isProcessing = false → '\n' ∉ s.text) :
    parseTranscript (exportTranscript segments)
      = ((getAllSegments segments).filter (fun s => !s.isProcessing)).map
          (fun s => s.text) := by
  unfold parseTranscript exportTranscript
  apply splitLines_joinLines
  · intro hmap
    exact hne (List.map_eq_nil_iff.mp hmap)
  · intro t ht
    obtain ⟨s, hs, rfl⟩ := List.mem_map.mp ht
    have hsproc : s.isProcessing = false := by
      have := List.of_mem_filter hs
      simpa using this
    have hsmem : s ∈ segments :=
      (List.perm_insertionSort _ segments).mem_iff.mp (List.mem_of_mem_filter hs)
    exact hnl s hsmem hsproc

theorem exportTranscript_roundtrip_amended_witness :
    ((getAllSegments [⟨"a", 5, ['h', 'i'], false⟩, ⟨"b", 3, ['y', 'o'], false⟩]).filter
        (fun s => !s.isProcessing) ≠ [] ∧
      (∀ s ∈ ([⟨"a", 5, ['h', 'i'], false⟩, ⟨"b", 3, ['y', 'o'], false⟩] :
          List TranscriptSegment), s.isProcessing = false → '\n' ∉ s.text)) ∧
    parseTranscript (exportTranscript
        [⟨"a", 5, ['h', 'i'], false⟩, ⟨"b", 3, ['y', 'o'], false⟩])
      = ((getAllSegments [⟨"a", 5, ['h', 'i'], false⟩, ⟨"b", 3, ['y', 'o'], false⟩]).filter
          (fun s => !s.isProcessing)).map (fun s => s.text) :=
  ⟨⟨by decide, by decide⟩,
    exportTranscript_roundtrip_amended
      [⟨"a", 5, ['h', 'i'], false⟩, ⟨"b", 3, ['y', 'o'], false⟩] (by decide) (by decide)⟩

/-- Claim C1: a detection tick emits the buffered segment iff
`isSegmentReady` is true, the tick's voice decision is inactive, and the time
elapsed since `lastVoiceEndTime` (which is reset to `now` on the tick where
voice just stopped) is at least `pauseThreshold`; the emission resets
`isSegmentReady` and `segmentRecordingTime` and leaves `activeRecordingTime`
unchanged; and over any run of voice-inactive detection ticks starting at the
tick where voice stops, no emission ever happens before `pauseThreshold`
milliseconds of continuous silence have elapsed, and exactly one emission
happens iff some tick falls at or after that point. -/
theorem handleSmartSegmentation_claim :
    (∀ (pauseThreshold now : Int) (voiceDetected : Bool) (st : SegState),
      (detectionTick pauseThreshold voiceDetected now st).2 = true ↔
        (st.isSegmentReady = true ∧ voiceDetected = false ∧
          pauseThreshold ≤ now -
            (if st.wasVoiceActive then now else st.lastVoiceEndTime))) ∧
    (∀ (pauseThreshold now : Int) (voiceDetected : Bool) (st : SegState),
      (detectionTick pauseThreshold voiceDetected now st).2 = true →
        ((detectionTick pauseThreshold voiceDetected now st).1.isSegmentReady = false ∧
         (detectionTick pauseThreshold voiceDetected now st).1.segmentRecordingTime = 0 ∧
         (detectionTick pauseThreshold voiceDetected now st).1.activeRecordingTime
           = st.activeRecordingTime)) ∧
    (∀ (pauseThreshold t0 : Int) (ts : List Int) (st : SegState),
      st.wasVoiceActive = true → st.isSegmentReady = true → (∀ t ∈ ts, t0 ≤ t) →
      ((∀ t ∈ (runSilenceTicks pauseThreshold st (t0 :: ts)).2, t0 + pauseThreshold ≤ t) ∧
       (runSilenceTicks pauseThreshold st (t0 :: ts)).2.length ≤ 1 ∧
       ((∃ t ∈ t0 :: ts, t0 + pauseThreshold ≤ t) ↔
         (runSilenceTicks pauseThreshold st (t0 :: ts)).2.length = 1))) := by
  refine ⟨?_, ?_, ?_⟩
  · intro pT now vd st
    cases vd with
    | true => simp [detectionTick_voice_on]
    | false =>
      cases hw : st.wasVoiceActive with
      | true =>
        rw [detectionTick_voicestop pT now st hw, if_pos rfl, sub_self]
        split_ifs with hc
        · simp [hc.1, hc.2]
        · constructor
          · intro hfalse
            simp at hfalse
          · rintro ⟨h1, -, h2⟩
            exact absurd ⟨h1, h2⟩ hc
      | false =>
        rw [detectionTick_silent pT now st hw,
          if_neg (show ¬(false = true) by simp)]
        split_ifs with hc
        · simp [hc.1, hc.2]
        · constructor
          · intro hfalse
            simp at hfalse
          · rintro ⟨h1, -, h2⟩
            exact absurd ⟨h1, h2⟩ hc
  · intro pT now vd st hemit
    cases vd with
    | true =>
      rw [detectionTick_voice_on] at hemit
      exact absurd hemit (by simp)
    | false =>
      cases hw : st.wasVoiceActive with
      | true =>
        rw [detectionTick_voicestop pT now st hw] at hemit ⊢
        split_ifs at hemit ⊢
        exact ⟨rfl, rfl, rfl⟩
      | false =>
        rw [detectionTick_silent pT now st hw] at hemit ⊢
        split_ifs at hemit ⊢
        exact ⟨rfl, rfl, rfl⟩
  · intro pT t0 ts st hw hr hmono
    have htick := detectionTick_voicestop pT t0 st hw
    by_cases hp : pT ≤ 0
    · rw [if_pos ⟨hr, hp⟩] at htick
      have hrest : (runSilenceTicks pT
          (⟨false, false, false, st.activeRecordingTime, st.totalRecordingTime, 0,
            t0⟩ : SegState) ts).2 = [] :=
        runSilence_not_ready pT ts _ rfl
      have hrun : (runSilenceTicks pT st (t0 :: ts)).2 = [t0] := by
        simp [runSilenceTicks, htick, hrest]
      rw [hrun]
      refine ⟨by simp; omega, by simp, ?_⟩
      simp only [List.length_singleton]
      exact ⟨fun _ => trivial, fun _ => ⟨t0, List.mem_cons_self t0 ts, by omega⟩⟩
    · rw [if_neg (fun hc => hp hc.2)] at htick
      have hrun : (runSilenceTicks pT st (t0 :: ts)).2
          = (runSilenceTicks pT
              (⟨false, false, st.isSegmentReady, st.activeRecordingTime,
                st.totalRecordingTime, st.segmentRecordingTime, t0⟩ : SegState) ts).2 := by
        simp [runSilenceTicks, htick]
      obtain ⟨ihall, ihlen, ihiff⟩ := runSilence_waiting pT t0 ts
        ⟨false, false, st.isSegmentReady, st.activeRecordingTime,
          st.totalRecordingTime, st.segmentRecordingTime, t0⟩
        rfl rfl hr rfl hmono
      rw [hrun]
      refine ⟨ihall, ihlen, ?_⟩
      rw [← ihiff]
      constructor
      · rintro ⟨u, hu, hcond⟩
        rcases List.mem_cons.mp hu with rfl | hu'
        · omega
        · exact ⟨u, hu', hcond⟩
      · rintro ⟨u, hu, hcond⟩
        exact ⟨u, List.mem_cons_of_mem t0 hu, hcond⟩

theorem handleSmartSegmentation_claim_witness :
    (((⟨false, true, true, 7, 9, 3, 0⟩ : SegState).wasVoiceActive = true ∧
        (⟨false, true, true, 7, 9, 3, 0⟩ : SegState).isSegmentReady = true ∧
        (∀ t ∈ ([103, 106] : List Int), (100:Int) ≤ t)) ∧
      (detectionTick 5 false 106 ⟨false, false, true, 7, 9, 3, 100⟩).2 = true) ∧
    ((∀ t ∈ (runSilenceTicks 5 (⟨false, true, true, 7, 9, 3, 0⟩ : SegState)
        (100 :: [103, 106])).2, (100:Int) + 5 ≤ t) ∧
      (runSilenceTicks 5 (⟨false, true, true, 7, 9, 3, 0⟩ : SegState)
        (100 :: [103, 106])).2.length ≤ 1 ∧
      ((∃ t ∈ (100:Int) :: [103, 106], (100:Int) + 5 ≤ t) ↔
        (runSilenceTicks 5 (⟨false, true, true, 7, 9, 3, 0⟩ : SegState)
          (100 :: [103, 106])).2.length = 1)) ∧
    (detectionTick 5 false 106
        ⟨false, false, true, 7, 9, 3, 100⟩).1.isSegmentReady = false ∧
    (detectionTick 5 false 106
        ⟨false, false, true, 7, 9, 3, 100⟩).1.segmentRecordingTime = 0 ∧
    (detectionTick 5 false 106
        ⟨false, false, true, 7, 9, 3, 100⟩).1.activeRecordingTime = 7 :=
  ⟨⟨⟨rfl, rfl, by decide⟩, by decide⟩,
    handleSmartSegmentation_claim.2.2 5 100 [103, 106] ⟨false, true, true, 7, 9, 3, 0⟩
      rfl rfl (by decide),
    (handleSmartSegmentation_claim.2.1 5 106 false
      ⟨false, false, true, 7, 9, 3, 100⟩ (by decide))⟩

end SmartTranscriber
